import Mathlib

/-!
# Verification of the RESP decoder (`src/lib.rs`)

Shallow embedding of the recursive-descent RESP parser.  The byte source
(`io::Bytes<R>`) is modelled as a pure `List Nat` of byte values (each
`< 256` on real inputs, though nothing below depends on that); every
parsing function takes the remaining bytes and returns either an error or
the parsed result together with the bytes left over.  Because the byte
source is pure, the `IoError` case of the source's error enum can never
arise; the constructor is kept for fidelity.

The mutual recursion between `parse_next` and `parse_array` in the source
is realised with a fuel parameter that decreases once per nesting level;
`decode_next` supplies `input.length + 1` fuel, which is always enough
because each nested value consumes at least one byte of input.
-/

namespace Resp

/-- The error enum of the source (`Error`).  `BadInteger`/`BadString`
carry the underlying Rust cause, which has no bearing on control flow and
is dropped here.  The spec names these `InvalidInteger`, `InvalidText`,
`EndOfStream`, `IoFailure`, `UnexpectedToken` and
`ProtocolInvariantViolation` (= `UnknownError`) respectively. -/
inductive Error where
  | BadInteger
  | BadString
  | EndOfStream
  | IoError
  | UnexpectedToken (tok : Nat)
  | UnknownError
deriving DecidableEq

/-- The decoded value type of the source (`RESPType`).  Rust `String`
payloads are modelled as their UTF-8 byte lists. -/
inductive RESPType where
  | SimpleString (s : List Nat)
  | Error (s : List Nat)
  | Integer (i : Int)
  | BulkString (b : List Nat)
  | Null
  | Array (items : List RESPType)

/-- `Parser::read_to_crlf`: read bytes until a bare LF (10), which is
consumed and excluded; every CR (13) is silently dropped; end of input
before an LF is `EndOfStream`. -/
def read_to_crlf : List Nat → Except Error (List Nat × List Nat)
  | [] => .error .EndOfStream
  | b :: rest =>
    if b = 10 then .ok ([], rest)
    else if b = 13 then read_to_crlf rest
    else
      match read_to_crlf rest with
      | .error e => .error e
      | .ok (buf, r) => .ok (b :: buf, r)

/-- One-pass UTF-8 acceptor.  The first argument lists the bounds
`[lo, hi)` of the continuation bytes still expected for the current
code point (empty when the previous code point is complete); a lead byte
pushes the constraints of its sequence, with the tighter first-byte
ranges that exclude overlong encodings, surrogates (`0xED 0xA0..`) and
code points above `0x10FFFF`. -/
def utf8Accept : List (Nat × Nat) → List Nat → Bool
  | [], [] => true
  | _ :: _, [] => false
  | (lo, hi) :: expect, b :: rest =>
    if lo ≤ b ∧ b < hi then utf8Accept expect rest else false
  | [], b :: rest =>
    if b < 0x80 then utf8Accept [] rest
    else if b < 0xC2 then false
    else if b < 0xE0 then utf8Accept [(0x80, 0xC0)] rest
    else if b = 0xE0 then utf8Accept [(0xA0, 0xC0), (0x80, 0xC0)] rest
    else if b = 0xED then utf8Accept [(0x80, 0xA0), (0x80, 0xC0)] rest
    else if b < 0xF0 then utf8Accept [(0x80, 0xC0), (0x80, 0xC0)] rest
    else if b = 0xF0 then utf8Accept [(0x90, 0xC0), (0x80, 0xC0), (0x80, 0xC0)] rest
    else if b < 0xF4 then utf8Accept [(0x80, 0xC0), (0x80, 0xC0), (0x80, 0xC0)] rest
    else if b = 0xF4 then utf8Accept [(0x80, 0x90), (0x80, 0xC0), (0x80, 0xC0)] rest
    else false

/-- UTF-8 validity of a byte sequence, as checked by Rust's
`String::from_utf8`. -/
def isValidUtf8 (l : List Nat) : Bool := utf8Accept [] l

/-- `Parser::parse_simple_str`: read a line, validate it as UTF-8
(`String::from_utf8`, whose failure is `BadString`). -/
def parse_simple_str (l : List Nat) : Except Error (RESPType × List Nat) :=
  match read_to_crlf l with
  | .error e => .error e
  | .ok (buf, rest) =>
    if isValidUtf8 buf then .ok (.SimpleString buf, rest)
    else .error .BadString

/-- ASCII decimal digit test (`'0'..'9'`, bytes 48–57). -/
def isDigit (b : Nat) : Bool := 48 ≤ b && b ≤ 57

/-- Value of a big-endian list of ASCII digit bytes. -/
def decimalValue (ds : List Nat) : Nat :=
  ds.foldl (fun a d => a * 10 + (d - 48)) 0

/-- The digit string's value with the sign applied. -/
def signedVal (neg : Bool) (ds : List Nat) : Int :=
  if neg then -(decimalValue ds : Int) else (decimalValue ds : Int)

/-- Digit part of `str::parse::<i64>` after the optional sign has been
stripped: one or more decimal digits whose signed value fits in `i64`.
Rust detects overflow during digit accumulation; because the accumulated
magnitude is monotone in the digits read, that is equivalent to the final
range check used here. -/
def parseI64core (neg : Bool) (ds : List Nat) : Option Int :=
  if ds = [] then none
  else if ds.all isDigit then
    if -(2 ^ 63) ≤ signedVal neg ds ∧ signedVal neg ds ≤ 2 ^ 63 - 1
    then some (signedVal neg ds) else none
  else none

/-- Rust's `str::parse::<i64>` on a (UTF-8 valid) byte list: an optional
leading `+` (byte 43) or `-` (byte 45) sign, then one or more decimal
digits, with the value required to fit in `i64`. -/
def parseI64 (s : List Nat) : Option Int :=
  match s with
  | [] => none
  | c :: rest =>
    if c = 45 then parseI64core true rest
    else if c = 43 then parseI64core false rest
    else parseI64core false s

/-- `Parser::parse_integer`: delegate to `parse_simple_str`, then parse
the text as an `i64` (`BadInteger` on failure).  The `_` fallback arm of
the source's match is kept verbatim. -/
def parse_integer (l : List Nat) : Except Error (RESPType × List Nat) :=
  match parse_simple_str l with
  | .error e => .error e
  | .ok (s, rest) =>
    match s with
    | .SimpleString x =>
      match parseI64 x with
      | some i => .ok (.Integer i, rest)
      | none => .error .BadInteger
    | _ => .error .UnknownError

/-- `Parser::parse_error`: delegate to `parse_simple_str` and rewrap the
payload as `Error`; the `_` fallback arm is kept verbatim. -/
def parse_error (l : List Nat) : Except Error (RESPType × List Nat) :=
  match parse_simple_str l with
  | .error e => .error e
  | .ok (s, rest) =>
    match s with
    | .SimpleString x => .ok (.Error x, rest)
    | _ => .error .UnknownError

/-- The byte-reading loop of `Parser::parse_bulk_str`: read exactly `n`
bytes, `EndOfStream` if the source runs out first. -/
def read_n : Nat → List Nat → Except Error (List Nat × List Nat)
  | 0, l => .ok ([], l)
  | _ + 1, [] => .error .EndOfStream
  | n + 1, b :: rest =>
    match read_n n rest with
    | .error e => .error e
    | .ok (buf, r) => .ok (b :: buf, r)

/-- `Parser::parse_bulk_str`: decode the length via `parse_integer`;
`-1` is `Null`, `n ≥ 0` reads `n` raw bytes then reads and discards one
line (the trailing CRLF), anything else is `UnknownError`. -/
def parse_bulk_str (l : List Nat) : Except Error (RESPType × List Nat) :=
  match parse_integer l with
  | .error e => .error e
  | .ok (.Integer n, rest) =>
    if n = -1 then .ok (.Null, rest)
    else if 0 ≤ n then
      match read_n n.toNat rest with
      | .error e => .error e
      | .ok (buf, r) =>
        match read_to_crlf r with
        | .error e => .error e
        | .ok (_, r2) => .ok (.BulkString buf, r2)
    else .error .UnknownError
  | .ok _ => .error .UnknownError

/-- The `for _ in 0..n` loop of `Parser::parse_array`: run `child`
(`parse_next` at the current call depth) `n` times, collecting results in
order; the first failure aborts the loop and propagates. -/
def run_items (child : List Nat → Except Error (RESPType × List Nat)) :
    Nat → List Nat → Except Error (List RESPType × List Nat)
  | 0, l => .ok ([], l)
  | n + 1, l =>
    match child l with
    | .error e => .error e
    | .ok (v, r) =>
      match run_items child n r with
      | .error e => .error e
      | .ok (vs, r2) => .ok (v :: vs, r2)

/-- `Parser::parse_array`: decode the count via `parse_integer`; `-1` is
`Null`; any other integer `n` runs the child loop `0..n` times (for
`n < -1` the Rust range `0..n` is empty, so `Int.toNat` matches); a
non-integer result hits the `_` fallback arm (`UnknownError`). -/
def parse_array (child : List Nat → Except Error (RESPType × List Nat))
    (l : List Nat) : Except Error (RESPType × List Nat) :=
  match parse_integer l with
  | .error e => .error e
  | .ok (.Integer n, rest) =>
    if n = -1 then .ok (.Null, rest)
    else
      match run_items child n.toNat rest with
      | .error e => .error e
      | .ok (vs, r) => .ok (.Array vs, r)
  | .ok _ => .error .UnknownError

/-- `Parser::parse_next`: read the tag byte (`EndOfStream` if the source
is exhausted) and dispatch on it; `*` 42, `$` 36, `-` 45, `:` 58, `+` 43,
anything else `UnexpectedToken`.  The fuel argument models the call
stack; it decreases only when recursing into an array's children and is
never exhausted when at least `input.length + 1` fuel is supplied. -/
def parse_next : Nat → List Nat → Except Error (RESPType × List Nat)
  | 0, _ => .error .UnknownError
  | fuel + 1, l =>
    match l with
    | [] => .error .EndOfStream
    | b :: rest =>
      if b = 42 then parse_array (parse_next fuel) rest
      else if b = 36 then parse_bulk_str rest
      else if b = 45 then parse_error rest
      else if b = 58 then parse_integer rest
      else if b = 43 then parse_simple_str rest
      else .error (.UnexpectedToken b)

/-- The public `decode_next` operation: `Parser::parse_next` run with
enough fuel for the whole input. -/
def decode_next (l : List Nat) : Except Error (RESPType × List Nat) :=
  parse_next (l.length + 1) l

/-! ## Behaviour of the line reader -/

theorem read_to_crlf_append_lf (pre rest : List Nat) (h : 10 ∉ pre) :
    read_to_crlf (pre ++ 10 :: rest) = .ok (pre.filter (fun b => b != 13), rest) := by
  induction pre with
  | nil => simp [read_to_crlf]
  | cons p pre ih =>
    have hp : p ≠ 10 := fun hp => h (hp ▸ List.mem_cons_self p pre)
    have hpre : 10 ∉ pre := fun hm => h (List.mem_cons_of_mem p hm)
    by_cases h13 : p = 13
    · subst h13
      simp [read_to_crlf, ih hpre, List.filter_cons]
    · simp [read_to_crlf, hp, h13, ih hpre, List.filter_cons]

theorem read_to_crlf_no_lf (l : List Nat) (h : 10 ∉ l) :
    read_to_crlf l = .error .EndOfStream := by
  induction l with
  | nil => rfl
  | cons b rest ih =>
    have hb : b ≠ 10 := fun hb => h (hb ▸ List.mem_cons_self b rest)
    have hrest : 10 ∉ rest := fun hm => h (List.mem_cons_of_mem b hm)
    by_cases h13 : b = 13
    · subst h13; simp [read_to_crlf, ih hrest]
    · simp [read_to_crlf, hb, h13, ih hrest]

theorem read_to_crlf_crlf (pre rest : List Nat) (h10 : 10 ∉ pre) (h13 : 13 ∉ pre) :
    read_to_crlf (pre ++ 13 :: 10 :: rest) = .ok (pre, rest) := by
  have h' : 10 ∉ pre ++ [13] := by
    intro hm
    rcases List.mem_append.1 hm with hm | hm
    · exact h10 hm
    · simp at hm
  have := read_to_crlf_append_lf (pre ++ [13]) rest h'
  rw [List.append_assoc] at this
  simp only [List.cons_append, List.nil_append] at this
  rw [this]
  have hf : (pre ++ [13]).filter (fun b => b != 13) = pre := by
    rw [List.filter_append]
    have : pre.filter (fun b => b != 13) = pre :=
      List.filter_eq_self.2 (fun b hb => by
        simp only [bne_iff_ne, ne_eq]
        exact fun hb13 => h13 (hb13 ▸ hb))
    simp [this]
  rw [hf]

theorem read_to_crlf_error (l : List Nat) (e : Error)
    (h : read_to_crlf l = .error e) : e = .EndOfStream := by
  induction l with
  | nil => simp [read_to_crlf] at h; exact h.symm
  | cons b rest ih =>
    by_cases hb : b = 10
    · subst hb; simp [read_to_crlf] at h
    · by_cases h13 : b = 13
      · subst h13; simp [read_to_crlf, hb] at h; exact ih h
      · simp only [read_to_crlf, if_neg hb, if_neg h13] at h
        cases hr : read_to_crlf rest with
        | error e2 => rw [hr] at h; cases h; exact ih hr
        | ok p => rw [hr] at h; cases h

theorem read_to_crlf_frame (l ext buf r : List Nat)
    (h : read_to_crlf l = .ok (buf, r)) :
    read_to_crlf (l ++ ext) = .ok (buf, r ++ ext) := by
  induction l generalizing buf with
  | nil => simp [read_to_crlf] at h
  | cons b rest ih =>
    by_cases hb : b = 10
    · subst hb
      simp only [read_to_crlf, if_pos rfl] at h
      cases h
      simp [read_to_crlf]
    · by_cases h13 : b = 13
      · subst h13
        simp only [read_to_crlf, if_neg (by decide : ¬ (13 : Nat) = 10), if_pos rfl] at h
        have h2 := ih buf h
        rw [List.cons_append]
        simpa [read_to_crlf] using h2
      · simp only [read_to_crlf, if_neg hb, if_neg h13] at h
        cases hr : read_to_crlf rest with
        | error e => rw [hr] at h; cases h
        | ok p =>
          obtain ⟨pb, pr⟩ := p
          rw [hr] at h
          cases h
          have h2 := ih pb hr
          rw [List.cons_append]
          simp only [read_to_crlf, if_neg hb, if_neg h13, h2]

/-! ## The simple-string decoder -/

theorem isValidUtf8_ascii (l : List Nat) (h : ∀ b ∈ l, b < 128) :
    isValidUtf8 l = true := by
  unfold isValidUtf8
  induction l with
  | nil => rfl
  | cons b rest ih =>
    have hb : b < 128 := h b (List.mem_cons_self b rest)
    rw [utf8Accept, if_pos hb]
    exact ih (fun x hx => h x (List.mem_cons_of_mem b hx))

theorem parse_simple_str_clean (s rest : List Nat) (h10 : 10 ∉ s) (h13 : 13 ∉ s)
    (hutf : isValidUtf8 s = true) :
    parse_simple_str (s ++ 13 :: 10 :: rest) = .ok (.SimpleString s, rest) := by
  unfold parse_simple_str
  rw [read_to_crlf_crlf s rest h10 h13]
  simp [hutf]

theorem parse_simple_str_frame (l ext r : List Nat) (v : RESPType)
    (h : parse_simple_str l = .ok (v, r)) :
    parse_simple_str (l ++ ext) = .ok (v, r ++ ext) := by
  unfold parse_simple_str at h ⊢
  cases hr : read_to_crlf l with
  | error e => rw [hr] at h; cases h
  | ok p =>
    obtain ⟨buf, rr⟩ := p
    rw [hr] at h
    by_cases hu : isValidUtf8 buf = true
    · simp only [if_pos hu] at h
      cases h
      rw [read_to_crlf_frame l ext buf _ hr]
      simp [hu]
    · simp [hu] at h

theorem parse_simple_str_shape (l r : List Nat) (v : RESPType)
    (h : parse_simple_str l = .ok (v, r)) : ∃ s, v = .SimpleString s := by
  unfold parse_simple_str at h
  cases hr : read_to_crlf l with
  | error e => rw [hr] at h; cases h
  | ok p =>
    obtain ⟨buf, rr⟩ := p
    rw [hr] at h
    by_cases hu : isValidUtf8 buf = true
    · simp only [if_pos hu] at h
      cases h
      exact ⟨buf, rfl⟩
    · simp [hu] at h

theorem parse_simple_str_error (l : List Nat) (e : Error)
    (h : parse_simple_str l = .error e) : e = .EndOfStream ∨ e = .BadString := by
  unfold parse_simple_str at h
  cases hr : read_to_crlf l with
  | error e2 =>
    rw [hr] at h
    cases h
    exact Or.inl (read_to_crlf_error l e hr)
  | ok p =>
    obtain ⟨buf, rr⟩ := p
    rw [hr] at h
    by_cases hu : isValidUtf8 buf = true
    · simp [hu] at h
    · simp only [if_neg hu] at h
      cases h
      exact Or.inr rfl

/-! ## The byte-exact reader of bulk-string payloads -/

theorem read_n_exact (b r : List Nat) : read_n b.length (b ++ r) = .ok (b, r) := by
  induction b with
  | nil => rfl
  | cons x xs ih => simp [read_n, ih]

theorem read_n_frame (n : Nat) (l ext buf r : List Nat)
    (h : read_n n l = .ok (buf, r)) :
    read_n n (l ++ ext) = .ok (buf, r ++ ext) := by
  induction n generalizing l buf with
  | zero =>
    simp only [read_n] at h
    cases h
    rfl
  | succ n ih =>
    cases l with
    | nil => simp [read_n] at h
    | cons b rest =>
      simp only [read_n] at h
      cases hr : read_n n rest with
      | error e => rw [hr] at h; cases h
      | ok p =>
        obtain ⟨pb, pr⟩ := p
        rw [hr] at h
        cases h
        have h2 := ih rest pb hr
        rw [List.cons_append]
        simp only [read_n, h2]

/-! ## Canonical decimal rendering and the integer parser -/

/-- Canonical base-10 digit bytes of a natural number (most significant
first, `"0"` for zero). -/
def natDecimal (n : Nat) : List Nat :=
  if n = 0 then [48] else ((Nat.digits 10 n).map (· + 48)).reverse

/-- Canonical base-10 rendering of an integer, with a leading `-` for
negative values. -/
def encodeInt (i : Int) : List Nat :=
  if i < 0 then 45 :: natDecimal (-i).toNat else natDecimal i.toNat

theorem decimalValue_digits (L : List Nat) (acc : Nat) :
    ((L.map (· + 48)).reverse).foldl (fun a d => a * 10 + (d - 48)) acc =
      acc * 10 ^ L.length + Nat.ofDigits 10 L := by
  induction L generalizing acc with
  | nil => simp [Nat.ofDigits_nil]
  | cons d L ih =>
    simp only [List.map_cons, List.reverse_cons, List.foldl_append, List.foldl_cons,
      List.foldl_nil, ih acc, List.length_cons, Nat.ofDigits_cons]
    have hd : d + 48 - 48 = d := by omega
    rw [hd, pow_succ]
    ring

theorem decimalValue_natDecimal (n : Nat) : decimalValue (natDecimal n) = n := by
  by_cases h : n = 0
  · subst h; rfl
  · unfold natDecimal decimalValue
    rw [if_neg h, decimalValue_digits]
    simp [Nat.ofDigits_digits]

theorem natDecimal_digits (n : Nat) : ∀ d ∈ natDecimal n, isDigit d = true := by
  intro d hd
  unfold natDecimal at hd
  by_cases h : n = 0
  · rw [if_pos h] at hd
    simp at hd
    subst hd; rfl
  · rw [if_neg h] at hd
    rw [List.mem_reverse, List.mem_map] at hd
    obtain ⟨x, hx, hdx⟩ := hd
    have hlt : x < 10 := Nat.digits_lt_base (by norm_num) hx
    subst hdx
    simp only [isDigit, Bool.and_eq_true, decide_eq_true_eq]
    omega

theorem natDecimal_ne_nil (n : Nat) : natDecimal n ≠ [] := by
  unfold natDecimal
  by_cases h : n = 0
  · simp [h]
  · rw [if_neg h]
    simp [Nat.digits_ne_nil_iff_ne_zero.2 h]

theorem natDecimal_byte_range (n : Nat) : ∀ d ∈ natDecimal n, 48 ≤ d ∧ d ≤ 57 := by
  intro d hd
  have := natDecimal_digits n d hd
  simp only [isDigit, Bool.and_eq_true, decide_eq_true_eq] at this
  exact this

theorem signedVal_false (ds : List Nat) : signedVal false ds = (decimalValue ds : Int) := by
  simp [signedVal]

theorem signedVal_true (ds : List Nat) : signedVal true ds = -(decimalValue ds : Int) := by
  simp [signedVal]

theorem parseI64_natDecimal (n : Nat) (h : n ≤ 2 ^ 63 - 1) :
    parseI64 (natDecimal n) = some (n : Int) := by
  have hpn : (2 : Nat) ^ 63 = 9223372036854775808 := by norm_num
  have hpi : (2 : Int) ^ 63 = 9223372036854775808 := by norm_num
  rw [hpn] at h
  cases hs : natDecimal n with
  | nil => exact absurd hs (natDecimal_ne_nil n)
  | cons c rest =>
    have hc : 48 ≤ c ∧ c ≤ 57 := by
      apply natDecimal_byte_range n
      rw [hs]; exact List.mem_cons_self c rest
    have hc45 : ¬ c = 45 := by omega
    have hc43 : ¬ c = 43 := by omega
    have hall : (c :: rest).all isDigit = true := by
      rw [← hs, List.all_eq_true]
      exact natDecimal_digits n
    have hval : (decimalValue (c :: rest) : Int) = (n : Int) := by
      rw [← hs, decimalValue_natDecimal]
    have hrange : -(2 ^ 63) ≤ signedVal false (c :: rest) ∧
        signedVal false (c :: rest) ≤ 2 ^ 63 - 1 := by
      rw [signedVal_false, hval, hpi]
      omega
    simp only [parseI64]
    rw [if_neg hc45, if_neg hc43]
    unfold parseI64core
    rw [if_neg (by simp : ¬ (c :: rest) = []), if_pos hall, if_pos hrange,
      signedVal_false, hval]

theorem parseI64_neg_natDecimal (m : Nat) (h : m ≤ 2 ^ 63) :
    parseI64 (45 :: natDecimal m) = some (-(m : Int)) := by
  have hpn : (2 : Nat) ^ 63 = 9223372036854775808 := by norm_num
  have hpi : (2 : Int) ^ 63 = 9223372036854775808 := by norm_num
  rw [hpn] at h
  have hall : (natDecimal m).all isDigit = true := by
    rw [List.all_eq_true]
    exact natDecimal_digits m
  have hrange : -(2 ^ 63) ≤ signedVal true (natDecimal m) ∧
      signedVal true (natDecimal m) ≤ 2 ^ 63 - 1 := by
    rw [signedVal_true, decimalValue_natDecimal, hpi]
    omega
  show parseI64core true (natDecimal m) = some (-(m : Int))
  unfold parseI64core
  rw [if_neg (natDecimal_ne_nil m), if_pos hall, if_pos hrange,
    signedVal_true, decimalValue_natDecimal]

theorem parseI64_encodeInt (i : Int) (h1 : -(2 ^ 63) ≤ i) (h2 : i ≤ 2 ^ 63 - 1) :
    parseI64 (encodeInt i) = some i := by
  unfold encodeInt
  by_cases hneg : i < 0
  · rw [if_pos hneg]
    have hm : ((-i).toNat : Int) = -i := Int.toNat_of_nonneg (by omega)
    have hb : (-i).toNat ≤ 2 ^ 63 := by omega
    rw [parseI64_neg_natDecimal _ hb, hm]
    simp
  · rw [if_neg hneg]
    have hm : (i.toNat : Int) = i := Int.toNat_of_nonneg (by omega)
    have hb : i.toNat ≤ 2 ^ 63 - 1 := by omega
    rw [parseI64_natDecimal _ hb, hm]

/-! ## Integer lines with canonical headers -/

theorem encodeInt_byte_range (i : Int) : ∀ b ∈ encodeInt i, b = 45 ∨ (48 ≤ b ∧ b ≤ 57) := by
  intro b hb
  unfold encodeInt at hb
  by_cases hneg : i < 0
  · rw [if_pos hneg] at hb
    rcases List.mem_cons.1 hb with hb | hb
    · exact Or.inl hb
    · exact Or.inr (natDecimal_byte_range _ b hb)
  · rw [if_neg hneg] at hb
    exact Or.inr (natDecimal_byte_range _ b hb)

theorem parse_integer_encodeInt (i : Int) (h1 : -(2 ^ 63) ≤ i) (h2 : i ≤ 2 ^ 63 - 1)
    (rest : List Nat) :
    parse_integer (encodeInt i ++ 13 :: 10 :: rest) = .ok (.Integer i, rest) := by
  have hb := encodeInt_byte_range i
  have h10 : 10 ∉ encodeInt i := by
    intro hm
    rcases hb 10 hm with h | h <;> omega
  have h13 : 13 ∉ encodeInt i := by
    intro hm
    rcases hb 13 hm with h | h <;> omega
  have hutf : isValidUtf8 (encodeInt i) = true := by
    apply isValidUtf8_ascii
    intro x hx
    rcases hb x hx with h | h <;> omega
  unfold parse_integer
  rw [parse_simple_str_clean _ _ h10 h13 hutf]
  simp [parseI64_encodeInt i h1 h2]

theorem encodeInt_natCast (n : Nat) : encodeInt (n : Int) = natDecimal n := by
  unfold encodeInt
  rw [if_neg (by omega : ¬ (n : Int) < 0), Int.toNat_natCast]

/-! ## Frame property: a successful parse is unaffected by extra bytes
after the ones it consumes -/

theorem parse_integer_frame (l ext r : List Nat) (v : RESPType)
    (h : parse_integer l = .ok (v, r)) :
    parse_integer (l ++ ext) = .ok (v, r ++ ext) := by
  cases hs : parse_simple_str l with
  | error e => simp [parse_integer, hs] at h
  | ok p =>
    obtain ⟨s, r1⟩ := p
    have hf := parse_simple_str_frame l ext r1 s hs
    cases s with
    | SimpleString x =>
      cases hp : parseI64 x with
      | some i =>
        simp [parse_integer, hs, hp] at h
        obtain ⟨rfl, rfl⟩ := h
        simp [parse_integer, hf, hp]
      | none => simp [parse_integer, hs, hp] at h
    | Error x => simp [parse_integer, hs] at h
    | Integer i => simp [parse_integer, hs] at h
    | BulkString b => simp [parse_integer, hs] at h
    | Null => simp [parse_integer, hs] at h
    | Array a => simp [parse_integer, hs] at h

theorem parse_error_frame (l ext r : List Nat) (v : RESPType)
    (h : parse_error l = .ok (v, r)) :
    parse_error (l ++ ext) = .ok (v, r ++ ext) := by
  cases hs : parse_simple_str l with
  | error e => simp [parse_error, hs] at h
  | ok p =>
    obtain ⟨s, r1⟩ := p
    have hf := parse_simple_str_frame l ext r1 s hs
    cases s with
    | SimpleString x =>
      simp [parse_error, hs] at h
      obtain ⟨rfl, rfl⟩ := h
      simp [parse_error, hf]
    | Error x => simp [parse_error, hs] at h
    | Integer i => simp [parse_error, hs] at h
    | BulkString b => simp [parse_error, hs] at h
    | Null => simp [parse_error, hs] at h
    | Array a => simp [parse_error, hs] at h

theorem parse_bulk_str_frame (l ext r : List Nat) (v : RESPType)
    (h : parse_bulk_str l = .ok (v, r)) :
    parse_bulk_str (l ++ ext) = .ok (v, r ++ ext) := by
  cases hs : parse_integer l with
  | error e => simp [parse_bulk_str, hs] at h
  | ok p =>
    obtain ⟨s, r1⟩ := p
    have hf := parse_integer_frame l ext r1 s hs
    cases s with
    | Integer n =>
      by_cases hn1 : n = -1
      · subst hn1
        simp [parse_bulk_str, hs] at h
        obtain ⟨rfl, rfl⟩ := h
        simp [parse_bulk_str, hf]
      · by_cases hn0 : 0 ≤ n
        · cases hrn : read_n n.toNat r1 with
          | error e => simp [parse_bulk_str, hs, hn1, hn0, hrn] at h
          | ok q =>
            obtain ⟨buf, r2⟩ := q
            cases hcr : read_to_crlf r2 with
            | error e => simp [parse_bulk_str, hs, hn1, hn0, hrn, hcr] at h
            | ok w =>
              obtain ⟨junk, r3⟩ := w
              simp [parse_bulk_str, hs, hn1, hn0, hrn, hcr] at h
              obtain ⟨rfl, rfl⟩ := h
              simp [parse_bulk_str, hf, hn1, hn0,
                read_n_frame n.toNat r1 ext buf r2 hrn,
                read_to_crlf_frame r2 ext junk r3 hcr]
        · simp [parse_bulk_str, hs, hn1, hn0] at h
    | SimpleString x => simp [parse_bulk_str, hs] at h
    | Error x => simp [parse_bulk_str, hs] at h
    | BulkString b => simp [parse_bulk_str, hs] at h
    | Null => simp [parse_bulk_str, hs] at h
    | Array a => simp [parse_bulk_str, hs] at h

theorem run_items_frame (child : List Nat → Except Error (RESPType × List Nat))
    (ext : List Nat)
    (hchild : ∀ l v r, child l = .ok (v, r) → child (l ++ ext) = .ok (v, r ++ ext)) :
    ∀ (n : Nat) (l r : List Nat) (vs : List RESPType),
      run_items child n l = .ok (vs, r) →
      run_items child n (l ++ ext) = .ok (vs, r ++ ext) := by
  intro n
  induction n with
  | zero =>
    intro l r vs h
    simp [run_items] at h
    obtain ⟨rfl, rfl⟩ := h
    simp [run_items]
  | succ n ih =>
    intro l r vs h
    cases hc : child l with
    | error e => simp [run_items, hc] at h
    | ok p =>
      obtain ⟨v, r1⟩ := p
      cases hrest : run_items child n r1 with
      | error e => simp [run_items, hc, hrest] at h
      | ok q =>
        obtain ⟨vs1, r2⟩ := q
        simp [run_items, hc, hrest] at h
        obtain ⟨rfl, rfl⟩ := h
        simp [run_items, hchild l v r1 hc, ih r1 r2 vs1 hrest]

theorem parse_array_frame (child : List Nat → Except Error (RESPType × List Nat))
    (ext : List Nat)
    (hchild : ∀ l v r, child l = .ok (v, r) → child (l ++ ext) = .ok (v, r ++ ext))
    (l r : List Nat) (v : RESPType) (h : parse_array child l = .ok (v, r)) :
    parse_array child (l ++ ext) = .ok (v, r ++ ext) := by
  cases hs : parse_integer l with
  | error e => simp [parse_array, hs] at h
  | ok p =>
    obtain ⟨s, r1⟩ := p
    have hf := parse_integer_frame l ext r1 s hs
    cases s with
    | Integer n =>
      by_cases hn1 : n = -1
      · subst hn1
        simp [parse_array, hs] at h
        obtain ⟨rfl, rfl⟩ := h
        simp [parse_array, hf]
      · cases hri : run_items child n.toNat r1 with
        | error e => simp [parse_array, hs, hn1, hri] at h
        | ok q =>
          obtain ⟨vs, r2⟩ := q
          simp [parse_array, hs, hn1, hri] at h
          obtain ⟨rfl, rfl⟩ := h
          simp [parse_array, hf, hn1, run_items_frame child ext hchild n.toNat r1 r2 vs hri]
    | SimpleString x => simp [parse_array, hs] at h
    | Error x => simp [parse_array, hs] at h
    | BulkString b => simp [parse_array, hs] at h
    | Null => simp [parse_array, hs] at h
    | Array a => simp [parse_array, hs] at h

theorem parse_next_frame (fuel : Nat) :
    ∀ l ext r (v : RESPType), parse_next fuel l = .ok (v, r) →
      parse_next fuel (l ++ ext) = .ok (v, r ++ ext) := by
  induction fuel with
  | zero =>
    intro l ext r v h
    simp [parse_next] at h
  | succ fuel ih =>
    intro l ext r v h
    cases l with
    | nil => simp [parse_next] at h
    | cons b rest =>
      rw [List.cons_append]
      by_cases h42 : b = 42
      · subst h42
        simp only [parse_next, if_pos rfl] at h ⊢
        exact parse_array_frame (parse_next fuel) ext (fun l2 v2 r2 => ih l2 ext r2 v2)
          rest r v h
      · by_cases h36 : b = 36
        · subst h36
          simp only [parse_next, if_neg (by decide : ¬ (36 : Nat) = 42), if_pos rfl] at h ⊢
          exact parse_bulk_str_frame rest ext r v h
        · by_cases h45 : b = 45
          · subst h45
            simp only [parse_next, if_neg (by decide : ¬ (45 : Nat) = 42),
              if_neg (by decide : ¬ (45 : Nat) = 36), if_pos rfl] at h ⊢
            exact parse_error_frame rest ext r v h
          · by_cases h58 : b = 58
            · subst h58
              simp only [parse_next, if_neg (by decide : ¬ (58 : Nat) = 42),
                if_neg (by decide : ¬ (58 : Nat) = 36),
                if_neg (by decide : ¬ (58 : Nat) = 45), if_pos rfl] at h ⊢
              exact parse_integer_frame rest ext r v h
            · by_cases h43 : b = 43
              · subst h43
                simp only [parse_next, if_neg (by decide : ¬ (43 : Nat) = 42),
                  if_neg (by decide : ¬ (43 : Nat) = 36),
                  if_neg (by decide : ¬ (43 : Nat) = 45),
                  if_neg (by decide : ¬ (43 : Nat) = 58), if_pos rfl] at h ⊢
                exact parse_simple_str_frame rest ext r v h
              · simp [parse_next, h42, h36, h45, h58, h43] at h

/-! ## Fuel monotonicity: extra fuel never changes a successful parse -/

theorem run_items_child_mono (c1 c2 : List Nat → Except Error (RESPType × List Nat))
    (hc : ∀ l v r, c1 l = .ok (v, r) → c2 l = .ok (v, r)) :
    ∀ (n : Nat) (l r : List Nat) (vs : List RESPType),
      run_items c1 n l = .ok (vs, r) → run_items c2 n l = .ok (vs, r) := by
  intro n
  induction n with
  | zero =>
    intro l r vs h
    simpa [run_items] using h
  | succ n ih =>
    intro l r vs h
    cases hc1 : c1 l with
    | error e => simp [run_items, hc1] at h
    | ok p =>
      obtain ⟨v, r1⟩ := p
      cases hrest : run_items c1 n r1 with
      | error e => simp [run_items, hc1, hrest] at h
      | ok q =>
        obtain ⟨vs1, r2⟩ := q
        simp [run_items, hc1, hrest] at h
        obtain ⟨rfl, rfl⟩ := h
        simp [run_items, hc l v r1 hc1, ih r1 r2 vs1 hrest]

theorem parse_array_child_mono (c1 c2 : List Nat → Except Error (RESPType × List Nat))
    (hc : ∀ l v r, c1 l = .ok (v, r) → c2 l = .ok (v, r))
    (l r : List Nat) (v : RESPType) (h : parse_array c1 l = .ok (v, r)) :
    parse_array c2 l = .ok (v, r) := by
  cases hs : parse_integer l with
  | error e => simp [parse_array, hs] at h
  | ok p =>
    obtain ⟨s, r1⟩ := p
    cases s with
    | Integer n =>
      by_cases hn1 : n = -1
      · subst hn1
        simp [parse_array, hs] at h
        obtain ⟨rfl, rfl⟩ := h
        simp [parse_array, hs]
      · cases hri : run_items c1 n.toNat r1 with
        | error e => simp [parse_array, hs, hn1, hri] at h
        | ok q =>
          obtain ⟨vs, r2⟩ := q
          simp [parse_array, hs, hn1, hri] at h
          obtain ⟨rfl, rfl⟩ := h
          simp [parse_array, hs, hn1, run_items_child_mono c1 c2 hc n.toNat r1 r2 vs hri]
    | SimpleString x => simp [parse_array, hs] at h
    | Error x => simp [parse_array, hs] at h
    | BulkString b => simp [parse_array, hs] at h
    | Null => simp [parse_array, hs] at h
    | Array a => simp [parse_array, hs] at h

theorem parse_next_mono (fuel : Nat) :
    ∀ (fuel2 : Nat), fuel ≤ fuel2 →
      ∀ l r (v : RESPType), parse_next fuel l = .ok (v, r) →
        parse_next fuel2 l = .ok (v, r) := by
  induction fuel with
  | zero =>
    intro fuel2 hle l r v h
    simp [parse_next] at h
  | succ fuel ih =>
    intro fuel2 hle l r v h
    obtain ⟨fuel3, rfl⟩ : ∃ f3, fuel2 = f3 + 1 := ⟨fuel2 - 1, by omega⟩
    have hle3 : fuel ≤ fuel3 := by omega
    cases l with
    | nil => simp [parse_next] at h
    | cons b rest =>
      by_cases h42 : b = 42
      · subst h42
        simp only [parse_next, if_pos rfl] at h ⊢
        exact parse_array_child_mono (parse_next fuel) (parse_next fuel3)
          (fun l2 v2 r2 => ih fuel3 hle3 l2 r2 v2) rest r v h
      · by_cases h36 : b = 36
        · subst h36
          simpa only [parse_next, if_neg (by decide : ¬ (36 : Nat) = 42), if_pos rfl] using h
        · by_cases h45 : b = 45
          · subst h45
            simpa only [parse_next, if_neg (by decide : ¬ (45 : Nat) = 42),
              if_neg (by decide : ¬ (45 : Nat) = 36), if_pos rfl] using h
          · by_cases h58 : b = 58
            · subst h58
              simpa only [parse_next, if_neg (by decide : ¬ (58 : Nat) = 42),
                if_neg (by decide : ¬ (58 : Nat) = 36),
                if_neg (by decide : ¬ (58 : Nat) = 45), if_pos rfl] using h
            · by_cases h43 : b = 43
              · subst h43
                simpa only [parse_next, if_neg (by decide : ¬ (43 : Nat) = 42),
                  if_neg (by decide : ¬ (43 : Nat) = 36),
                  if_neg (by decide : ¬ (43 : Nat) = 45),
                  if_neg (by decide : ¬ (43 : Nat) = 58), if_pos rfl] using h
              · simp [parse_next, h42, h36, h45, h58, h43] at h

/-- A value successfully decoded from exactly the bytes `B` is decoded
identically, leaving `ext` untouched, when the parser runs on `B ++ ext`
with any fuel of at least `B.length + 1`. -/
theorem decode_next_extend (B ext : List Nat) (v : RESPType) (fuel : Nat)
    (h : decode_next B = .ok (v, []))
    (hfuel : B.length + 1 ≤ fuel) :
    parse_next fuel (B ++ ext) = .ok (v, ext) := by
  have h1 : parse_next fuel B = .ok (v, []) :=
    parse_next_mono (B.length + 1) fuel hfuel B [] v h
  have h2 := parse_next_frame fuel B ext [] v h1
  simpa using h2

/-! ## Decoding a concatenation of independently decodable values -/

theorem flatten_mem_length (ps : List (List Nat × RESPType)) (p : List Nat × RESPType)
    (hp : p ∈ ps) : p.1.length ≤ ((ps.map Prod.fst).flatten).length := by
  induction ps with
  | nil => cases hp
  | cons q ps ih =>
    rcases List.mem_cons.1 hp with rfl | hp2
    · simp
    · simp only [List.map_cons, List.flatten_cons, List.length_append]
      have := ih hp2
      omega

theorem run_items_goods (fuel : Nat) (ps : List (List Nat × RESPType)) (tail : List Nat)
    (hgood : ∀ p ∈ ps, decode_next p.1 = .ok (p.2, []))
    (hfuel : ∀ p ∈ ps, p.1.length + 1 ≤ fuel) :
    run_items (parse_next fuel) ps.length ((ps.map Prod.fst).flatten ++ tail) =
      .ok (ps.map Prod.snd, tail) := by
  induction ps with
  | nil => simp [run_items]
  | cons q ps ih =>
    obtain ⟨B, v⟩ := q
    have hq := hgood (B, v) (List.mem_cons_self _ _)
    have hqf := hfuel (B, v) (List.mem_cons_self _ _)
    have hstep : parse_next fuel (B ++ ((ps.map Prod.fst).flatten ++ tail)) =
        .ok (v, (ps.map Prod.fst).flatten ++ tail) :=
      decode_next_extend B _ v fuel hq hqf
    have hrest := ih (fun p hp => hgood p (List.mem_cons_of_mem _ hp))
      (fun p hp => hfuel p (List.mem_cons_of_mem _ hp))
    simp only [List.map_cons, List.flatten_cons, List.length_cons, List.append_assoc]
    simp [run_items, hstep, hrest]

theorem run_items_add (child : List Nat → Except Error (RESPType × List Nat))
    (a : Nat) :
    ∀ (b : Nat) (l r : List Nat) (vs : List RESPType),
      run_items child a l = .ok (vs, r) →
      run_items child (a + b) l =
        (match run_items child b r with
         | .error e => .error e
         | .ok (vs2, r2) => .ok (vs ++ vs2, r2)) := by
  induction a with
  | zero =>
    intro b l r vs h
    simp [run_items] at h
    obtain ⟨rfl, rfl⟩ := h
    rw [Nat.zero_add]
    cases hx : run_items child b l with
    | error e => simp [hx]
    | ok q => simp [hx]
  | succ a ih =>
    intro b l r vs h
    cases hc : child l with
    | error e => simp [run_items, hc] at h
    | ok p =>
      obtain ⟨v, r1⟩ := p
      cases hrest : run_items child a r1 with
      | error e => simp [run_items, hc, hrest] at h
      | ok q =>
        obtain ⟨vs1, r2⟩ := q
        simp [run_items, hc, hrest] at h
        obtain ⟨rfl, rfl⟩ := h
        have h2 := ih b r1 r2 vs1 hrest
        rw [show a + 1 + b = (a + b) + 1 by omega]
        cases hx : run_items child b r2 with
        | error e =>
          rw [hx] at h2
          simp [run_items, hc, h2, hx]
        | ok q2 =>
          obtain ⟨vs2, r3⟩ := q2
          rw [hx] at h2
          simp [run_items, hc, h2, hx]

/-! ## Tag dispatch of `parse_next`, specialised to each tag byte -/

theorem decode_next_star (x : List Nat) :
    decode_next (42 :: x) = parse_array (parse_next (x.length + 1)) x := rfl

theorem decode_next_dollar (x : List Nat) : decode_next (36 :: x) = parse_bulk_str x := rfl

theorem decode_next_colon (x : List Nat) : decode_next (58 :: x) = parse_integer x := rfl

theorem parse_next_succ_colon (f : Nat) (x : List Nat) :
    parse_next (f + 1) (58 :: x) = parse_integer x := rfl

/-! ## Which texts the integer parser accepts -/

/-- Shape of an accepted integer line, written from the amended spec
wording: an optional leading `-` (45) or `+` (43) sign followed by one or
more base-10 digits of a signed 64-bit integer — the digits' value must
fit the `i64` range, which reaches magnitude `2 ^ 63` for the `-` form
and `2 ^ 63 - 1` otherwise. -/
def SignedDigitsShape (s : List Nat) : Prop :=
  ∃ sign ds, (sign = [] ∨ sign = [45] ∨ sign = [43]) ∧ s = sign ++ ds ∧
    ds ≠ [] ∧ (∀ d ∈ ds, isDigit d = true) ∧
    (if sign = [45] then (decimalValue ds : Int) ≤ 2 ^ 63
     else (decimalValue ds : Int) ≤ 2 ^ 63 - 1)

theorem parseI64core_digits (neg : Bool) (ds : List Nat) (hne : ¬ ds = [])
    (hall : ds.all isDigit = true)
    (hr : -(2 ^ 63) ≤ signedVal neg ds ∧ signedVal neg ds ≤ 2 ^ 63 - 1) :
    parseI64core neg ds = some (signedVal neg ds) := by
  unfold parseI64core
  rw [if_neg hne, if_pos hall, if_pos hr]

theorem parseI64_digits_pos (ds : List Nat) (hne : ¬ ds = [])
    (hall : ∀ d ∈ ds, isDigit d = true)
    (h : (decimalValue ds : Int) ≤ 2 ^ 63 - 1) :
    parseI64 ds = some ((decimalValue ds : Int)) := by
  have hr : -(2 ^ 63) ≤ signedVal false ds ∧ signedVal false ds ≤ 2 ^ 63 - 1 := by
    rw [signedVal_false]
    have := Int.ofNat_nonneg (decimalValue ds)
    constructor <;> omega
  cases ds with
  | nil => exact absurd rfl hne
  | cons c rest =>
    have hc := hall c (List.mem_cons_self c rest)
    simp only [isDigit, Bool.and_eq_true, decide_eq_true_eq] at hc
    have h45 : ¬ c = 45 := by omega
    have h43 : ¬ c = 43 := by omega
    simp only [parseI64]
    rw [if_neg h45, if_neg h43,
      parseI64core_digits false (c :: rest) (by simp) (List.all_eq_true.2 hall) hr,
      signedVal_false]

theorem parseI64_digits_neg (ds : List Nat) (hne : ¬ ds = [])
    (hall : ∀ d ∈ ds, isDigit d = true)
    (h : (decimalValue ds : Int) ≤ 2 ^ 63) :
    parseI64 (45 :: ds) = some (-(decimalValue ds : Int)) := by
  have hr : -(2 ^ 63) ≤ signedVal true ds ∧ signedVal true ds ≤ 2 ^ 63 - 1 := by
    rw [signedVal_true]
    have := Int.ofNat_nonneg (decimalValue ds)
    constructor <;> omega
  show parseI64core true ds = some (-(decimalValue ds : Int))
  rw [parseI64core_digits true ds hne (List.all_eq_true.2 hall) hr, signedVal_true]

theorem parseI64_digits_plus (ds : List Nat) (hne : ¬ ds = [])
    (hall : ∀ d ∈ ds, isDigit d = true)
    (h : (decimalValue ds : Int) ≤ 2 ^ 63 - 1) :
    parseI64 (43 :: ds) = some ((decimalValue ds : Int)) := by
  have hr : -(2 ^ 63) ≤ signedVal false ds ∧ signedVal false ds ≤ 2 ^ 63 - 1 := by
    rw [signedVal_false]
    have := Int.ofNat_nonneg (decimalValue ds)
    constructor <;> omega
  show parseI64core false ds = some ((decimalValue ds : Int))
  rw [parseI64core_digits false ds hne (List.all_eq_true.2 hall) hr, signedVal_false]

theorem parseI64core_ne_none (neg : Bool) (ds : List Nat)
    (h : ¬ parseI64core neg ds = none) :
    ¬ ds = [] ∧ ds.all isDigit = true ∧
      -(2 ^ 63) ≤ signedVal neg ds ∧ signedVal neg ds ≤ 2 ^ 63 - 1 := by
  unfold parseI64core at h
  by_cases hne : ds = []
  · rw [if_pos hne] at h
    exact absurd rfl h
  · rw [if_neg hne] at h
    by_cases hall : ds.all isDigit = true
    · rw [if_pos hall] at h
      by_cases hr : -(2 ^ 63) ≤ signedVal neg ds ∧ signedVal neg ds ≤ 2 ^ 63 - 1
      · exact ⟨hne, hall, hr.1, hr.2⟩
      · rw [if_neg hr] at h
        exact absurd rfl h
    · rw [if_neg hall] at h
      exact absurd rfl h

theorem parseI64_some_shape (s : List Nat) (h : ¬ parseI64 s = none) :
    SignedDigitsShape s := by
  cases s with
  | nil => simp [parseI64] at h
  | cons c rest =>
    simp only [parseI64] at h
    by_cases h45 : c = 45
    · rw [if_pos h45] at h
      obtain ⟨hne, hall, hr1, hr2⟩ := parseI64core_ne_none true rest h
      rw [signedVal_true] at hr1
      refine ⟨[45], rest, Or.inr (Or.inl rfl), by rw [h45]; rfl, hne,
        List.all_eq_true.1 hall, ?_⟩
      rw [if_pos rfl]
      omega
    · rw [if_neg h45] at h
      by_cases h43 : c = 43
      · rw [if_pos h43] at h
        obtain ⟨hne, hall, hr1, hr2⟩ := parseI64core_ne_none false rest h
        rw [signedVal_false] at hr2
        refine ⟨[43], rest, Or.inr (Or.inr rfl), by rw [h43]; rfl, hne,
          List.all_eq_true.1 hall, ?_⟩
        rw [if_neg (by decide : ¬ ([43] : List Nat) = [45])]
        exact hr2
      · rw [if_neg h43] at h
        obtain ⟨hne, hall, hr1, hr2⟩ := parseI64core_ne_none false (c :: rest) h
        rw [signedVal_false] at hr2
        refine ⟨[], c :: rest, Or.inl rfl, rfl, by simp,
          List.all_eq_true.1 hall, ?_⟩
        rw [if_neg (by decide : ¬ ([] : List Nat) = [45])]
        exact hr2

theorem digit_line_clean (ds : List Nat) (hall : ∀ d ∈ ds, isDigit d = true) :
    10 ∉ ds ∧ 13 ∉ ds ∧ isValidUtf8 ds = true := by
  have hb : ∀ d ∈ ds, 48 ≤ d ∧ d ≤ 57 := by
    intro d hd
    have := hall d hd
    simp only [isDigit, Bool.and_eq_true, decide_eq_true_eq] at this
    exact this
  refine ⟨fun hm => ?_, fun hm => ?_, isValidUtf8_ascii ds (fun d hd => ?_)⟩
  · have := hb 10 hm; omega
  · have := hb 13 hm; omega
  · have := hb d hd; omega

/-! ## Claim C1 -/

/-- C1 counterexample: decoding `*-2\r\n` does not fail with
`UnknownError` (`ProtocolInvariantViolation`); the count `-2` matches the
`Integer(n)` arm of `parse_array` and the `0..n` loop is empty, so it
succeeds with an empty array. -/
theorem negative_array_count_counterexample :
    decode_next [42, 45, 50, 13, 10] = .ok (.Array [], []) ∧
    ¬ decode_next [42, 45, 50, 13, 10] = .error .UnknownError := by
  constructor
  · rfl
  · intro h
    rw [show decode_next [42, 45, 50, 13, 10] =
        (Except.ok (RESPType.Array [], ([] : List Nat)) : Except Error (RESPType × List Nat))
      from rfl] at h
    cases h

/-- C1 (amended): for the bulk-string sub-decoder a declared length below
`-1` fails with `UnknownError` (`ProtocolInvariantViolation`); for the
array sub-decoder a declared count below `-1` is not an error — the
`Integer(n)` arm's `0..n` loop runs zero times and an empty `Array` is
returned. -/
theorem negative_length_policy (n : Int) (h1 : -(2 ^ 63) ≤ n) (h2 : n ≤ -2)
    (tail : List Nat) :
    decode_next (36 :: (encodeInt n ++ 13 :: 10 :: tail)) = .error .UnknownError ∧
    decode_next (42 :: (encodeInt n ++ 13 :: 10 :: tail)) = .ok (.Array [], tail) := by
  have hint := parse_integer_encodeInt n h1 (by omega) tail
  have hn1 : ¬ n = -1 := by omega
  have hn0 : ¬ 0 ≤ n := by omega
  constructor
  · rw [decode_next_dollar]
    simp [parse_bulk_str, hint, hn1, hn0]
  · rw [decode_next_star]
    have ht : n.toNat = 0 := Int.toNat_of_nonpos (by omega)
    simp [parse_array, hint, hn1, ht, run_items]

/-- Witness for `negative_length_policy` at `n = -2`. -/
theorem negative_length_policy_witness :
    (-(2 ^ 63) ≤ (-2 : Int) ∧ (-2 : Int) ≤ -2) ∧
    decode_next (36 :: (encodeInt (-2) ++ 13 :: 10 :: [])) = .error .UnknownError ∧
    decode_next (42 :: (encodeInt (-2) ++ 13 :: 10 :: [])) = .ok (.Array [], []) :=
  ⟨⟨by norm_num, le_refl _⟩,
    (negative_length_policy (-2) (by norm_num) (le_refl _) []).1,
    (negative_length_policy (-2) (by norm_num) (le_refl _) []).2⟩

/-! ## Claim C2 -/

/-- C2 counterexample: the integer line `:+5\r\n` (leading plus sign)
decodes successfully to `Integer 5`; it does not fail with `BadInteger`
(`InvalidInteger`) as the claim states. -/
theorem plus_sign_counterexample :
    decode_next [58, 43, 53, 13, 10] = .ok (.Integer 5, []) ∧
    ¬ decode_next [58, 43, 53, 13, 10] = .error .BadInteger := by
  constructor
  · rfl
  · intro h
    rw [show decode_next [58, 43, 53, 13, 10] =
        (Except.ok (RESPType.Integer 5, ([] : List Nat)) : Except Error (RESPType × List Nat))
      from rfl] at h
    cases h

/-- C2 (amended): the integer sub-decoder accepts exactly the texts
consisting of an optional leading `-` or `+` sign followed by base-10
digits of a signed 64-bit integer — no surrounding whitespace; the
digits' magnitude may reach `2 ^ 63` for the `-` form (so `i64::MIN` is
accepted) and `2 ^ 63 - 1` otherwise — and every other (UTF-8 valid)
line text, including in-shape digit strings whose value overflows `i64`,
fails with `BadInteger` (`InvalidInteger`). -/
theorem integer_text_policy :
    (∀ ds : List Nat, ¬ ds = [] → (∀ d ∈ ds, isDigit d = true) →
      (decimalValue ds : Int) ≤ 2 ^ 63 - 1 →
      decode_next (58 :: (ds ++ [13, 10])) = .ok (.Integer ((decimalValue ds : Int)), []) ∧
      decode_next (58 :: (43 :: ds ++ [13, 10])) =
        .ok (.Integer ((decimalValue ds : Int)), [])) ∧
    (∀ ds : List Nat, ¬ ds = [] → (∀ d ∈ ds, isDigit d = true) →
      (decimalValue ds : Int) ≤ 2 ^ 63 →
      decode_next (58 :: (45 :: ds ++ [13, 10])) =
        .ok (.Integer (-(decimalValue ds : Int)), [])) ∧
    (∀ s : List Nat, 10 ∉ s → 13 ∉ s → isValidUtf8 s = true → ¬ SignedDigitsShape s →
      decode_next (58 :: (s ++ [13, 10])) = .error .BadInteger) := by
  refine ⟨?_, ?_, ?_⟩
  · intro ds hne hall hrange
    obtain ⟨h10, h13, hutf⟩ := digit_line_clean ds hall
    have hlt : ∀ d ∈ ds, d < 128 := by
      intro d hd
      have := hall d hd
      simp only [isDigit, Bool.and_eq_true, decide_eq_true_eq] at this
      omega
    constructor
    · rw [decode_next_colon]
      unfold parse_integer
      rw [parse_simple_str_clean ds [] h10 h13 hutf]
      simp [parseI64_digits_pos ds hne hall hrange]
    · rw [decode_next_colon,
        show (43 :: ds ++ [13, 10] : List Nat) = (43 :: ds) ++ 13 :: 10 :: [] from by simp]
      unfold parse_integer
      rw [parse_simple_str_clean (43 :: ds) []
        (by simp [h10]) (by simp [h13])
        (isValidUtf8_ascii _ (by
          intro b hb
          rcases List.mem_cons.1 hb with rfl | hb2
          · omega
          · exact hlt b hb2))]
      simp [parseI64_digits_plus ds hne hall hrange]
  · intro ds hne hall hrange
    obtain ⟨h10, h13, hutf⟩ := digit_line_clean ds hall
    have hlt : ∀ d ∈ ds, d < 128 := by
      intro d hd
      have := hall d hd
      simp only [isDigit, Bool.and_eq_true, decide_eq_true_eq] at this
      omega
    rw [decode_next_colon,
      show (45 :: ds ++ [13, 10] : List Nat) = (45 :: ds) ++ 13 :: 10 :: [] from by simp]
    unfold parse_integer
    rw [parse_simple_str_clean (45 :: ds) []
      (by simp [h10]) (by simp [h13])
      (isValidUtf8_ascii _ (by
        intro b hb
        rcases List.mem_cons.1 hb with rfl | hb2
        · omega
        · exact hlt b hb2))]
    simp [parseI64_digits_neg ds hne hall hrange]
  · intro s h10 h13 hutf hshape
    rw [decode_next_colon]
    unfold parse_integer
    rw [parse_simple_str_clean s [] h10 h13 hutf]
    cases hp : parseI64 s with
    | some i =>
      exact absurd (parseI64_some_shape s (by rw [hp]; simp)) hshape
    | none => simp [hp]

/-- The decimal digit bytes of `2 ^ 63` (`9223372036854775808`): the
magnitude of `i64::MIN`, and the smallest positive value that overflows
`i64`. -/
def pow63Digits : List Nat :=
  [57, 50, 50, 51, 51, 55, 50, 48, 51, 54, 56, 53, 52, 55, 55, 53, 56, 48, 56]

/-- Witness for `integer_text_policy`: the digit text `5` in all three
sign forms; the accepted boundary text `-9223372036854775808`
(`i64::MIN`); the rejected text ` 5` (leading whitespace); and the
rejected out-of-range text `9223372036854775808`. -/
theorem integer_text_policy_witness :
    (¬ ([53] : List Nat) = [] ∧
      decode_next (58 :: ([53] ++ [13, 10])) = .ok (.Integer ((decimalValue [53] : Int)), []) ∧
      decode_next (58 :: (43 :: [53] ++ [13, 10])) =
        .ok (.Integer ((decimalValue [53] : Int)), []) ∧
      decode_next (58 :: (45 :: [53] ++ [13, 10])) =
        .ok (.Integer (-(decimalValue [53] : Int)), [])) ∧
    ((decimalValue pow63Digits : Int) ≤ 2 ^ 63 ∧
      decode_next (58 :: (45 :: pow63Digits ++ [13, 10])) =
        .ok (.Integer (-(decimalValue pow63Digits : Int)), [])) ∧
    (¬ SignedDigitsShape [32, 53] ∧
      decode_next (58 :: ([32, 53] ++ [13, 10])) = .error .BadInteger) ∧
    (¬ SignedDigitsShape pow63Digits ∧
      decode_next (58 :: (pow63Digits ++ [13, 10])) = .error .BadInteger) := by
  have hshape1 : ¬ SignedDigitsShape [32, 53] := by
    rintro ⟨sign, ds, hsign, hs, hne, hall, hrange⟩
    rcases hsign with rfl | rfl | rfl
    · rw [List.nil_append] at hs
      have h32 : (32 : Nat) ∈ ds := by rw [← hs]; simp
      have := hall 32 h32
      simp [isDigit] at this
    · simp at hs
    · simp at hs
  have hshape2 : ¬ SignedDigitsShape pow63Digits := by
    rintro ⟨sign, ds, hsign, hs, hne, hall, hrange⟩
    rcases hsign with rfl | rfl | rfl
    · rw [List.nil_append] at hs
      subst hs
      rw [if_neg (by decide : ¬ ([] : List Nat) = [45])] at hrange
      exact absurd hrange (by decide)
    · simp [pow63Digits] at hs
    · simp [pow63Digits] at hs
  refine ⟨⟨by simp, ?_, ?_, ?_⟩, ⟨by decide, ?_⟩, ⟨hshape1, ?_⟩, ⟨hshape2, ?_⟩⟩
  · exact (integer_text_policy.1 [53] (by simp) (by decide) (by decide)).1
  · exact (integer_text_policy.1 [53] (by simp) (by decide) (by decide)).2
  · exact integer_text_policy.2.1 [53] (by simp) (by decide) (by decide)
  · exact integer_text_policy.2.1 pow63Digits (by decide) (by decide) (by decide)
  · exact integer_text_policy.2.2 [32, 53] (by decide) (by decide) (by decide) hshape1
  · exact integer_text_policy.2.2 pow63Digits (by decide) (by decide) (by decide) hshape2

/-! ## Claim C5 -/

/-- C5: the line reader terminates only on a bare LF (consumed and
excluded from the result), silently drops every CR it encounters, and
fails with `EndOfStream` when the source ends before any LF. -/
theorem read_line_lf_cr_policy :
    (∀ pre rest : List Nat, 10 ∉ pre →
      read_to_crlf (pre ++ 10 :: rest) = .ok (pre.filter (fun b => b != 13), rest)) ∧
    (∀ l : List Nat, 10 ∉ l → read_to_crlf l = .error .EndOfStream) :=
  ⟨read_to_crlf_append_lf, read_to_crlf_no_lf⟩

/-- Witness for `read_line_lf_cr_policy`: the line `H\rE` followed by LF
and one more byte, and the unterminated input `H\r`. -/
theorem read_line_lf_cr_policy_witness :
    ((10 : Nat) ∉ [72, 13, 69] ∧
      read_to_crlf ([72, 13, 69] ++ 10 :: [99]) = .ok ([72, 69], [99])) ∧
    ((10 : Nat) ∉ [72, 13] ∧ read_to_crlf [72, 13] = .error .EndOfStream) := by
  refine ⟨⟨by decide, ?_⟩, ⟨by decide, ?_⟩⟩
  · exact read_line_lf_cr_policy.1 [72, 13, 69] [99] (by decide)
  · exact read_line_lf_cr_policy.2 [72, 13] (by decide)

/-! ## Claim C7 -/

/-- C7: `$-1\r\n` and `*-1\r\n` each decode to `Null`; `*0\r\n` decodes
to the empty `Array` and `$0\r\n\r\n` to the empty `BulkString`; and
`Null` is a distinct variant from both. -/
theorem null_and_empty_distinct :
    decode_next [36, 45, 49, 13, 10] = .ok (.Null, []) ∧
    decode_next [42, 45, 49, 13, 10] = .ok (.Null, []) ∧
    decode_next [42, 48, 13, 10] = .ok (.Array [], []) ∧
    decode_next [36, 48, 13, 10, 13, 10] = .ok (.BulkString [], []) ∧
    ¬ RESPType.Null = RESPType.BulkString [] ∧
    ¬ RESPType.Null = RESPType.Array [] :=
  ⟨rfl, rfl, rfl, rfl, fun h => RESPType.noConfusion h, fun h => RESPType.noConfusion h⟩

/-! ## Claim C8 -/

/-- C8: empty input fails with `EndOfStream`; `:ten\r\n` fails with
`BadInteger` (`InvalidInteger`); `:10` without a line terminator fails
with `EndOfStream`; and any leading tag byte outside `* $ - : +` fails
with `UnexpectedToken` carrying that byte. -/
theorem malformed_input_errors :
    decode_next [] = .error .EndOfStream ∧
    decode_next [58, 116, 101, 110, 13, 10] = .error .BadInteger ∧
    decode_next [58, 49, 48] = .error .EndOfStream ∧
    (∀ (b : Nat) (l : List Nat), ¬ b = 42 → ¬ b = 36 → ¬ b = 45 → ¬ b = 58 → ¬ b = 43 →
      decode_next (b :: l) = .error (.UnexpectedToken b)) := by
  refine ⟨rfl, rfl, rfl, ?_⟩
  intro b l h42 h36 h45 h58 h43
  show parse_next (l.length + 1 + 1) (b :: l) = .error (.UnexpectedToken b)
  simp [parse_next, h42, h36, h45, h58, h43]

/-- Witness for `malformed_input_errors` at the tag byte `!` (33). -/
theorem malformed_input_errors_witness :
    ¬ (33 : Nat) = 42 ∧ decode_next [33, 0] = .error (.UnexpectedToken 33) :=
  ⟨by decide, malformed_input_errors.2.2.2 33 [0]
    (by decide) (by decide) (by decide) (by decide) (by decide)⟩

/-! ## Claim C4 -/

/-- C4: for every byte sequence `B` (declarable length, including length
zero and payloads containing CR bytes), decoding `$L\r\n` + `B` + `\r\n`
yields exactly `BulkString B`, because the payload is read by its
declared length. -/
theorem bulk_string_byte_exact (B tail : List Nat) (hlen : B.length ≤ 2 ^ 63 - 1) :
    decode_next (36 :: (natDecimal B.length ++ 13 :: 10 :: (B ++ 13 :: 10 :: tail))) =
      .ok (.BulkString B, tail) := by
  rw [decode_next_dollar]
  have h1 : -(2 ^ 63) ≤ (B.length : Int) := by
    have := Int.ofNat_nonneg B.length
    omega
  have h2 : (B.length : Int) ≤ 2 ^ 63 - 1 := by
    have hpn : (2 : Nat) ^ 63 = 9223372036854775808 := by norm_num
    have hpi : (2 : Int) ^ 63 = 9223372036854775808 := by norm_num
    rw [hpn] at hlen
    rw [hpi]
    omega
  have hint := parse_integer_encodeInt (B.length : Int) h1 h2 (B ++ 13 :: 10 :: tail)
  rw [encodeInt_natCast] at hint
  have hcr : read_to_crlf (13 :: 10 :: tail) = .ok ([], tail) := by
    have := read_to_crlf_crlf [] tail (by simp) (by simp)
    simpa using this
  simp [parse_bulk_str, hint, Int.toNat_natCast, read_n_exact, hcr,
    (by omega : ¬ (B.length : Int) = -1), Int.ofNat_nonneg]

/-- Witness for `bulk_string_byte_exact`: the payload `HE\rHE` of the
repository's own test, whose middle byte is a CR. -/
theorem bulk_string_byte_exact_witness :
    ([72, 69, 13, 72, 69] : List Nat).length ≤ 2 ^ 63 - 1 ∧
    decode_next (36 :: (natDecimal ([72, 69, 13, 72, 69] : List Nat).length ++
        13 :: 10 :: ([72, 69, 13, 72, 69] ++ 13 :: 10 :: []))) =
      .ok (.BulkString [72, 69, 13, 72, 69], []) :=
  ⟨by decide, bulk_string_byte_exact [72, 69, 13, 72, 69] [] (by decide)⟩

/-! ## Claim C6 -/

/-- C6: a successful decode consumes exactly the bytes of the current
value: on a stream holding two concatenated well-formed encoded values,
the first call returns the first value leaving the second value's bytes
untouched, and the second call returns the second value. -/
theorem two_values_sequential (B1 B2 : List Nat) (v1 v2 : RESPType)
    (h1 : decode_next B1 = .ok (v1, []))
    (h2 : decode_next B2 = .ok (v2, [])) :
    decode_next (B1 ++ B2) = .ok (v1, B2) ∧ decode_next B2 = .ok (v2, []) := by
  refine ⟨?_, h2⟩
  unfold decode_next
  exact decode_next_extend B1 B2 v1 ((B1 ++ B2).length + 1) h1
    (by simp only [List.length_append]; omega)

/-- Witness for `two_values_sequential`: the stream `:32\r\n:42\r\n` of
the repository's own test. -/
theorem two_values_sequential_witness :
    decode_next [58, 51, 50, 13, 10] = .ok (.Integer 32, []) ∧
    decode_next [58, 52, 50, 13, 10] = .ok (.Integer 42, []) ∧
    decode_next ([58, 51, 50, 13, 10] ++ [58, 52, 50, 13, 10]) =
      .ok (.Integer 32, [58, 52, 50, 13, 10]) :=
  ⟨rfl, rfl,
    (two_values_sequential [58, 51, 50, 13, 10] [58, 52, 50, 13, 10]
      (.Integer 32) (.Integer 42) rfl rfl).1⟩

/-! ## Claim C3 -/

/-- C3: for every sequence of values `V1..VN`, each decodable from
exactly its own byte string `B1..BN`, decoding `*N\r\n` followed by the
concatenation `B1 ++ ... ++ BN` yields the array `[V1,...,VN]` in order;
nested arrays satisfy the same hypothesis, so the property holds
recursively. -/
theorem array_concat_roundtrip (ps : List (List Nat × RESPType))
    (hgood : ∀ p ∈ ps, decode_next p.1 = .ok (p.2, []))
    (hn : ps.length ≤ 2 ^ 63 - 1) :
    decode_next (42 :: (natDecimal ps.length ++ 13 :: 10 :: (ps.map Prod.fst).flatten)) =
      .ok (.Array (ps.map Prod.snd), []) := by
  rw [decode_next_star]
  have h1 : -(2 ^ 63) ≤ (ps.length : Int) := by
    have := Int.ofNat_nonneg ps.length
    omega
  have h2 : (ps.length : Int) ≤ 2 ^ 63 - 1 := by
    have hpn : (2 : Nat) ^ 63 = 9223372036854775808 := by norm_num
    have hpi : (2 : Int) ^ 63 = 9223372036854775808 := by norm_num
    rw [hpn] at hn
    rw [hpi]
    omega
  have hint := parse_integer_encodeInt (ps.length : Int) h1 h2 ((ps.map Prod.fst).flatten)
  rw [encodeInt_natCast] at hint
  have hfuel : ∀ p ∈ ps, p.1.length + 1 ≤
      (natDecimal ps.length ++ 13 :: 10 :: (ps.map Prod.fst).flatten).length + 1 := by
    intro p hp
    have hm := flatten_mem_length ps p hp
    simp only [List.length_append, List.length_cons]
    omega
  have hri := run_items_goods
    ((natDecimal ps.length ++ 13 :: 10 :: (ps.map Prod.fst).flatten).length + 1)
    ps [] hgood hfuel
  rw [List.append_nil] at hri
  simp only [parse_array, hint, if_neg (show ¬ (ps.length : Int) = -1 by omega),
    Int.toNat_natCast, hri]

/-- Witness for `array_concat_roundtrip`: the two-element sequence
`:32\r\n`, `*0\r\n` — an integer followed by a nested (empty) array. -/
theorem array_concat_roundtrip_witness :
    (∀ p ∈ ([([58, 51, 50, 13, 10], RESPType.Integer 32),
             ([42, 48, 13, 10], RESPType.Array [])] :
        List (List Nat × RESPType)), decode_next p.1 = .ok (p.2, [])) ∧
    decode_next (42 :: (natDecimal ([([58, 51, 50, 13, 10], RESPType.Integer 32),
             ([42, 48, 13, 10], RESPType.Array [])] :
        List (List Nat × RESPType)).length ++ 13 :: 10 ::
        (([([58, 51, 50, 13, 10], RESPType.Integer 32),
             ([42, 48, 13, 10], RESPType.Array [])] :
        List (List Nat × RESPType)).map Prod.fst).flatten)) =
      .ok (.Array (([([58, 51, 50, 13, 10], RESPType.Integer 32),
             ([42, 48, 13, 10], RESPType.Array [])] :
        List (List Nat × RESPType)).map Prod.snd), []) := by
  have hgood : ∀ p ∈ ([([58, 51, 50, 13, 10], RESPType.Integer 32),
             ([42, 48, 13, 10], RESPType.Array [])] :
        List (List Nat × RESPType)), decode_next p.1 = .ok (p.2, []) := by
    intro p hp
    rcases List.mem_cons.1 hp with rfl | hp2
    · rfl
    · rcases List.mem_cons.1 hp2 with rfl | hp3
      · rfl
      · cases hp3
  exact ⟨hgood, array_concat_roundtrip _ hgood (by decide)⟩

/-! ## Claim C9 -/

/-- C9: decoding `:N\r\n` for any `N` in the signed 64-bit range
(including both extremes) yields `Integer N`; and during an array decode
a failing child aborts the whole decode, propagating the child's error
with no partial array returned. -/
theorem integer_roundtrip_and_array_abort :
    (∀ i : Int, -(2 ^ 63) ≤ i → i ≤ 2 ^ 63 - 1 →
      decode_next (58 :: (encodeInt i ++ [13, 10])) = .ok (.Integer i, [])) ∧
    (∀ (ps : List (List Nat × RESPType)) (bad : List Nat) (e : Error) (n : Nat),
      (∀ p ∈ ps, decode_next p.1 = .ok (p.2, [])) →
      (∀ f : Nat, bad.length < f → parse_next f bad = .error e) →
      ps.length < n → n ≤ 2 ^ 63 - 1 →
      decode_next (42 :: (natDecimal n ++ 13 :: 10 :: ((ps.map Prod.fst).flatten ++ bad))) =
        .error e) := by
  constructor
  · intro i h1 h2
    rw [decode_next_colon]
    exact parse_integer_encodeInt i h1 h2 []
  · intro ps bad e n hgood hbad hlen hn
    rw [decode_next_star]
    have h1 : -(2 ^ 63) ≤ (n : Int) := by
      have := Int.ofNat_nonneg n
      omega
    have h2 : (n : Int) ≤ 2 ^ 63 - 1 := by
      have hpn : (2 : Nat) ^ 63 = 9223372036854775808 := by norm_num
      have hpi : (2 : Int) ^ 63 = 9223372036854775808 := by norm_num
      rw [hpn] at hn
      rw [hpi]
      omega
    have hint := parse_integer_encodeInt (n : Int) h1 h2 ((ps.map Prod.fst).flatten ++ bad)
    rw [encodeInt_natCast] at hint
    have hflen : ((ps.map Prod.fst).flatten).length ≤
        (natDecimal n ++ 13 :: 10 :: ((ps.map Prod.fst).flatten ++ bad)).length := by
      simp only [List.length_append, List.length_cons]
      omega
    have hblen : bad.length <
        (natDecimal n ++ 13 :: 10 :: ((ps.map Prod.fst).flatten ++ bad)).length + 1 := by
      simp only [List.length_append, List.length_cons]
      omega
    have hfuel : ∀ p ∈ ps, p.1.length + 1 ≤
        (natDecimal n ++ 13 :: 10 :: ((ps.map Prod.fst).flatten ++ bad)).length + 1 := by
      intro p hp
      have hm := flatten_mem_length ps p hp
      omega
    have hgoods := run_items_goods
      ((natDecimal n ++ 13 :: 10 :: ((ps.map Prod.fst).flatten ++ bad)).length + 1)
      ps bad hgood hfuel
    obtain ⟨k, hk⟩ : ∃ k, n = ps.length + (k + 1) := ⟨n - ps.length - 1, by omega⟩
    have hadd := run_items_add
      (parse_next ((natDecimal n ++ 13 :: 10 :: ((ps.map Prod.fst).flatten ++ bad)).length + 1))
      ps.length (k + 1) _ bad (ps.map Prod.snd) hgoods
    have hbadrun : run_items
        (parse_next ((natDecimal n ++ 13 :: 10 :: ((ps.map Prod.fst).flatten ++ bad)).length + 1))
        (k + 1) bad = .error e := by
      have hb := hbad _ hblen
      simp only [run_items, hb]
    rw [hbadrun] at hadd
    have hadd2 : run_items
        (parse_next ((natDecimal n ++ 13 :: 10 :: ((ps.map Prod.fst).flatten ++ bad)).length + 1))
        (ps.length + (k + 1)) ((ps.map Prod.fst).flatten ++ bad) = .error e := hadd
    rw [← hk] at hadd2
    simp only [parse_array, hint, if_neg (show ¬ (n : Int) = -1 by omega),
      Int.toNat_natCast, hadd2]

/-- Witness for `integer_roundtrip_and_array_abort`: the `i64` extremes,
and the array `*1\r\n:ten\r\n` whose only child fails with
`BadInteger`. -/
theorem integer_roundtrip_and_array_abort_witness :
    decode_next (58 :: (encodeInt (-(2 ^ 63)) ++ [13, 10])) =
      .ok (.Integer (-(2 ^ 63)), []) ∧
    decode_next (58 :: (encodeInt (2 ^ 63 - 1) ++ [13, 10])) =
      .ok (.Integer (2 ^ 63 - 1), []) ∧
    decode_next (42 :: (natDecimal 1 ++ 13 :: 10 ::
        ((([] : List (List Nat × RESPType)).map Prod.fst).flatten ++
          [58, 116, 101, 110, 13, 10]))) = .error .BadInteger := by
  refine ⟨?_, ?_, ?_⟩
  · exact integer_roundtrip_and_array_abort.1 (-(2 ^ 63)) (le_refl _) (by norm_num)
  · exact integer_roundtrip_and_array_abort.1 (2 ^ 63 - 1) (by norm_num) (le_refl _)
  · apply integer_roundtrip_and_array_abort.2 [] [58, 116, 101, 110, 13, 10] .BadInteger 1
    · intro p hp
      cases hp
    · intro f hf
      obtain ⟨g, rfl⟩ : ∃ g, f = g + 1 := ⟨f - 1, by omega⟩
      rw [parse_next_succ_colon]
      rfl
    · decide
    · decide

/-! ## Claim C10 -/

/-- C10: whenever the simple-string sub-decoder succeeds its result is a
`SimpleString`, so the `_ => UnknownError` fallback arms of the error and
integer sub-decoders never fire: neither `parse_error` nor
`parse_integer` can return `UnknownError` on any input. -/
theorem simple_str_always_simple_string (l : List Nat) :
    (∀ (v : RESPType) (r : List Nat), parse_simple_str l = .ok (v, r) →
      ∃ s, v = .SimpleString s) ∧
    ¬ parse_error l = .error .UnknownError ∧
    ¬ parse_integer l = .error .UnknownError := by
  refine ⟨fun v r h => parse_simple_str_shape l r v h, ?_, ?_⟩
  · intro h
    cases hs : parse_simple_str l with
    | error e =>
      simp [parse_error, hs] at h
      subst h
      rcases parse_simple_str_error l _ hs with h1 | h1 <;> cases h1
    | ok p =>
      obtain ⟨s, r1⟩ := p
      obtain ⟨x, rfl⟩ := parse_simple_str_shape l r1 s hs
      simp [parse_error, hs] at h
  · intro h
    cases hs : parse_simple_str l with
    | error e =>
      simp [parse_integer, hs] at h
      subst h
      rcases parse_simple_str_error l _ hs with h1 | h1 <;> cases h1
    | ok p =>
      obtain ⟨s, r1⟩ := p
      obtain ⟨x, rfl⟩ := parse_simple_str_shape l r1 s hs
      cases hp : parseI64 x with
      | some i => simp [parse_integer, hs, hp] at h
      | none => simp [parse_integer, hs, hp] at h

/-- Witness for `simple_str_always_simple_string` on the line `A\r\n`. -/
theorem simple_str_always_simple_string_witness :
    parse_simple_str [65, 13, 10] = .ok (.SimpleString [65], []) ∧
    (∃ s, RESPType.SimpleString [65] = RESPType.SimpleString s) ∧
    ¬ parse_error [65, 13, 10] = .error .UnknownError ∧
    ¬ parse_integer [65, 13, 10] = .error .UnknownError :=
  ⟨rfl, (simple_str_always_simple_string [65, 13, 10]).1 (.SimpleString [65]) [] rfl,
    (simple_str_always_simple_string [65, 13, 10]).2.1,
    (simple_str_always_simple_string [65, 13, 10]).2.2⟩

end Resp
